import Mathlib

/-!
Verification of the background-repainting stage of Gen4Gen
(`src/gen4gen/s3_background_repainting.py`), via a shallow embedding of its
catalog building, mask compositing, caption lookup and output bookkeeping.
Pixel values are modelled as `Nat` (uint8) or `ℚ` (numpy float64 after the
`/ 255.` normalisation, which is exact on the inputs the claims quantify
over); the external diffusion pipeline is modelled only through its
contract (one output image per batch element).
-/

namespace Gen4Gen

/-! ## Mask arithmetic (lines 233-253 of `s3_background_repainting.py`) -/

/-- Embeds `255 - np.array(mask)` (line 235): per-channel uint8 inversion.
The `% 256` is the uint8 wrap-around; for in-range values it is a no-op. -/
def invertMask (m : Nat) : Nat := (255 - m) % 256

/-- Embeds `np.array(mask_image) / 255.` (line 242): the mask normalised to
the real interval, exact in float64 hence modelled over `ℚ`. -/
def normMask (m : ℚ) : ℚ := m / 255

/-- Embeds lines 242-251: `bkg_mask * bkg` followed by
`np.stack((bkg, new_img)).max(axis=0)`, per pixel index `(i, j)` and channel
`c`.  `mask`, `bkg`, `fg` are the resized mask, background and foreground
arrays as functions of the indices. -/
def compositeImage (mask bkg fg : Nat → Nat → Nat → ℚ) : Nat → Nat → Nat → ℚ :=
  fun i j c => max (normMask (mask i j c) * bkg i j c) (fg i j c)

/-! ## The category-to-phrase table (lines 85-136) -/

/-- Looks a key up in an association list with Python-dict semantics on a
deduplicated list: first (= only) binding wins. -/
def dictLookup (d : List (String × String)) (k : String) : Option String :=
  (d.find? (fun kv => kv.1 == k)).map (fun kv => kv.2)

/-- Overwrite-or-append insertion, as executing one `key: value` item of a
Python dict literal: an existing binding for the key is replaced in place,
otherwise the pair is appended. -/
def setKey (d : List (String × String)) (k v : String) : List (String × String) :=
  match d with
  | [] => [(k, v)]
  | (k', v') :: rest => if k' = k then (k, v) :: rest else (k', v') :: setKey rest k v

/-- Evaluates a Python dict literal: items inserted left to right, a later
duplicate key silently overwriting the earlier binding. -/
def pyDictAux (acc : List (String × String)) : List (String × String) → List (String × String)
  | [] => acc
  | (k, v) :: rest => pyDictAux (setKey acc k v) rest

/-- The `bkg_to_prompt` dict literal exactly as written in the source
(lines 85-136), in source order, including the duplicate `farm` item. -/
def bkg_to_prompt_items : List (String × String) := [
  ("garden", "in a garden"),
  ("garden_lake", "in a garden with the lake"),
  ("room", "in a room"),
  ("farm", "in the farm"),
  ("grass", "on the grass"),
  ("galaxy", "in the galaxy"),
  ("office", "in the office"),
  ("forest", "in the forest"),
  ("beach", "on the beach"),
  ("museum", "in the museum"),
  ("nationalpark", "in the national park"),
  ("sand", "on the sand"),
  ("sky", "in the sky"),
  ("park", "at the park"),
  ("airport", "at the airport"),
  ("mountain", "over the mountain"),
  ("sea", "on the sea"),
  ("harbor", "in the harbor"),
  ("farm", "on the farm"),
  ("field", "in the field"),
  ("countryside", "in the countryside"),
  ("bedroom", "in the bedroom"),
  ("living-room", "in the living room"),
  ("playroom", "in the playroom"),
  ("kitchen", "in the kitchen"),
  ("savannah", "on the savannah"),
  ("zoo", "at the zoo"),
  ("safari", "in the safari"),
  ("circus", "at the circus"),
  ("pasture", "at the pasture"),
  ("meadow", "on the meadow"),
  ("ocean", "in the ocean"),
  ("coral-reef", "on the coral reef"),
  ("aquarium", "in the aquarium"),
  ("underwater-cave", "in the underwater cave"),
  ("medieval-village", "in the medieval village"),
  ("sidewalk", "on the sidewalk"),
  ("playground", "at the playground"),
  ("clothing-store", "in the clothing store"),
  ("closet", "in the closet"),
  ("laboratory", "in the laboratory"),
  ("jungle", "in the jungle"),
  ("city", "in the city"),
  ("desert", "in the desert"),
  ("oasis", "in the oasis"),
  ("pond", "in the pond"),
  ("gym", "in the gym"),
  ("grasslands", "on the grasslands"),
  ("gallery", "in the gallery"),
  ("cafe", "in the cafe")]

/-- The `bkg_to_prompt` mapping as Python builds it from the literal. -/
def bkg_to_prompt : List (String × String) := pyDictAux [] bkg_to_prompt_items

/-! ## Path helpers (`Path(...).stem`, `osp.join`, `str.replace`) -/

/-- The characters of a path after its last slash, as `pathlib` isolates the
final path component. -/
def lastComponent (s : List Char) : List Char :=
  (s.reverse.takeWhile (fun c => c ≠ '/')).reverse

/-- The stem of a final path component, following `pathlib`: the name up to
its last dot, except that a dot at position 0 or a trailing dot does not
start a suffix. -/
def stemChars (name : List Char) : List Char :=
  let tail := name.reverse.takeWhile (fun c => c ≠ '.')
  if tail.length = name.length then name
  else if 1 ≤ name.length - tail.length - 1 ∧ 1 ≤ tail.length then
    name.take (name.length - tail.length - 1)
  else name

/-- Embeds `Path(x).stem`. -/
def stemOf (s : String) : String := String.mk (stemChars (lastComponent s.data))

/-- Embeds `osp.join(a, b)` for the POSIX paths the script manipulates. -/
def joinPath (a b : String) : String := a ++ "/" ++ b

/-- Fuelled worker for Python `str.replace`: scans left to right and
replaces every non-overlapping occurrence of the pattern. The fuel is the
length of the scanned text, enough because each step consumes at least one
character. -/
def pyReplaceAux (pat rep : List Char) : Nat → List Char → List Char
  | 0, s => s
  | fuel + 1, s =>
    match s with
    | [] => []
    | c :: rest =>
      if pat.isPrefixOf s then rep ++ pyReplaceAux pat rep fuel (s.drop pat.length)
      else c :: pyReplaceAux pat rep fuel rest

/-- Embeds Python `s.replace(pat, rep)` for a non-empty pattern. -/
def pyReplace (s pat rep : String) : String :=
  String.mk (pyReplaceAux pat.data rep.data s.data.length s.data)

/-- Embeds lines 203-204: `img_path = osp.join(args.src_dir, img_id)` then
`mask_path = img_path.replace('img', 'mask')` on the full joined path. -/
def mask_path (srcDir imgId : String) : String :=
  pyReplace (joinPath srcDir imgId) "img" "mask"

/-! ## Background catalog builder (lines 166-179) -/

/-- The accepted image extensions (`VALID_IMAGE_EXTENSION`, lines 30-32). -/
def VALID_IMAGE_EXTENSION : List String :=
  ["rgb", "gif", "pbm", "pgm", "ppm", "tiff", "rast",
   "xbm", "jpeg", "jpg", "bmp", "png", "webp", "ext"]

/-- Lower-cases a string character by character, as `str.lower` does on the
ASCII file names involved. -/
def lowerStr (s : String) : String := String.mk (s.data.map Char.toLower)

/-- Embeds `f.lower().endswith(VALID_IMAGE_EXTENSION)` (line 174): suffix
test against any accepted extension, case-insensitively. -/
def isValidImage (f : String) : Bool :=
  VALID_IMAGE_EXTENSION.any (fun ext => ext.data.isSuffixOf (lowerStr f).data)

/-- Lexicographic order on strings by code point, as Python `sorted` uses. -/
def charListLe : List Char → List Char → Bool
  | [], _ => true
  | _ :: _, [] => false
  | a :: as, b :: bs => if a < b then true else if b < a then false else charListLe as bs

/-- Inserts a string into an already sorted list. -/
def insertSorted (x : String) : List String → List String
  | [] => [x]
  | y :: ys => if charListLe x.data y.data then x :: y :: ys else y :: insertSorted x ys

/-- Embeds `sorted(...)` on file names: produces the lexicographically
sorted rearrangement. -/
def sortStrings : List String → List String
  | [] => []
  | x :: xs => insertSorted x (sortStrings xs)

/-- A deterministic pseudo-random step, standing in for NumPy's Mersenne
Twister: the draws made after `np.random.seed(0)` are a pure function of
the state, which is the property the claims depend on. -/
def lcg (s : Nat) : Nat := (6364136223846793005 * s + 1442695040888963407) % 2 ^ 64

/-- Draws `n` elements without replacement: each step picks one index of the
remaining population from the generator state and removes the element. -/
def sampleNoReplace : Nat → List String → Nat → List String × Nat
  | s, _, 0 => ([], s)
  | s, xs, n + 1 =>
    let s' := lcg s
    let i := s' % xs.length
    let res := sampleNoReplace s' (xs.eraseIdx i) n
    (xs.getD i "" :: res.1, res.2)

/-- Embeds `np.random.choice(files, n, replace=False)` (line 178): raises
`ValueError` — modelled as `none` — when `n` exceeds the population size,
and otherwise deterministically draws `n` distinct elements. -/
def npChoice (s : Nat) (xs : List String) (n : Nat) : Option (List String × Nat) :=
  if xs.length < n then none else some (sampleNoReplace s xs n)

/-- One step of `os.walk`: a visited directory path together with the file
names it holds.  `stem` caches `Path(root).stem`, the catalog key. -/
structure DirEntry where
  root : String
  stem : String
  files : List String
deriving DecidableEq

/-- The matching files of a directory, as lines 174 and 177 produce them:
filtered by extension, sorted, then joined onto the directory path. -/
def joinedMatched (d : DirEntry) : List String :=
  (sortStrings (d.files.filter (fun f => isValidImage f))).map (fun f => joinPath d.root f)

/-- Overwrite-or-append for the catalog (`bkg_dict[Path(root).stem] = ...`,
line 179, on a `defaultdict`). -/
def setEntry (d : List (String × List String)) (k : String) (v : List String) :
    List (String × List String) :=
  match d with
  | [] => [(k, v)]
  | (k', v') :: rest => if k' = k then (k, v) :: rest else (k', v') :: setEntry rest k v

/-- The walk loop of lines 172-179, threading the generator state: skip
directories with no matching file, otherwise sample and record under the
directory's stem. -/
def buildCatalogAux (maxN : Nat) :
    Nat → List DirEntry → List (String × List String) →
    Except String (List (String × List String))
  | _, [], acc => .ok acc
  | s, d :: rest, acc =>
    if (joinedMatched d).isEmpty then buildCatalogAux maxN s rest acc
    else
      match npChoice s (joinedMatched d) maxN with
      | none => .error "ValueError: cannot take a larger sample than population"
      | some res => buildCatalogAux maxN res.2 rest (setEntry acc d.stem res.1)

/-- Embeds the Background Catalog Builder: `np.random.seed(0)` fixes the
initial state, then the walk entries are processed in traversal order. -/
def buildCatalog (seed maxN : Nat) (walk : List DirEntry) :
    Except String (List (String × List String)) :=
  buildCatalogAux maxN seed walk []

/-! ## Noise background and mask preprocessing (lines 211-231) -/

/-- A pixel array as a function of row, column and channel. -/
abbrev PixArray := Nat → Nat → Nat → Nat

/-- One value of `np.random.randint(low=0, high=255)` (line 212): the upper
bound is exclusive, so the result lies in `[0, 254]`.  The draw is a
deterministic function of the generator state and the array position. -/
def randint255 (seed i j c : Nat) : Nat := lcg (seed + 1000003 * i + 1009 * j + c) % 255

/-- The background image as the branch at lines 211-216 produces it, with
its provenance: a noise array of shape `height × width × channels`, or the
loaded photo passed through `ImageFilter.GaussianBlur(radius=1)` —
represented by the external filter `gauss` and the `gaussianSmoothed`
flag. -/
structure BkgImage where
  height : Nat
  width : Nat
  channels : Nat
  pix : PixArray
  gaussianSmoothed : Bool

/-- Embeds lines 211-216: with `--noise-bkg` the background is a fresh
`H × W × 3` noise array and no Gaussian filter runs; otherwise the loaded
photo is Gaussian-smoothed.  `gauss` is the external `GaussianBlur(1)`
filter and `filePix` the decoded photo. -/
def loadBackground (noiseBkg : Bool) (seed H W : Nat)
    (gauss : PixArray → PixArray) (filePix : PixArray) : BkgImage :=
  if noiseBkg then
    { height := H, width := W, channels := 3,
      pix := fun i j c => randint255 seed i j c, gaussianSmoothed := false }
  else
    { height := H, width := W, channels := 3,
      pix := gauss filePix, gaussianSmoothed := true }

/-- Embeds lines 222-231: when `args.blur_size >= 1` the mask is box-blurred
and intensity-rescaled (`boxBlur` and `rescale` stand for the external
`ImageFilter.BoxBlur` and `exposure.rescale_intensity`); otherwise it is
left untouched.  The branch never consults the noise-background toggle. -/
def processMask (blurSize : Int) (boxBlur rescale : PixArray → PixArray)
    (mask : PixArray) : PixArray :=
  if 1 ≤ blurSize then rescale (boxBlur mask) else mask

/-! ## Captions, file names and the output loop (lines 201-323) -/

/-- The `CAPTION` template (line 34) instantiated at a prompt. -/
def mkCaption (prompt : String) : String := "a realistic photo of " ++ prompt

/-- The `f"{n:06d}"` conversion: decimal digits left-padded with zeros to
width at least six. -/
def pad6 (n : Nat) : String :=
  let s := Nat.repr n
  String.mk (List.replicate (6 - s.length) '0') ++ s

/-- The output file name of line 316:
`f"{img_id}_repaint-id_{cnt+1:06d}+{caption}.png"`, with `counterVal` the
already-incremented `cnt + 1`. -/
def mkOutName (stem : String) (counterVal : Nat) (caption : String) : String :=
  stem ++ "_repaint-id_" ++ pad6 counterVal ++ "+" ++ caption ++ ".png"

/-- The external diffusion pipeline, modelled only through its contract:
one output image per batch element (the images themselves are opaque). -/
def pipeImages (batchSize : Nat) : List Unit := List.replicate batchSize ()

/-- The refiner pass (lines 296-306): consumes the first pass's outputs and
replaces them one for one, adding none. -/
def refinerImages (imgs : List Unit) : List Unit := imgs.map (fun _ => ())

/-- One saved image and its manifest row: the destination directory, file
name and background prompt written to the CSV (lines 316-323), plus the
category, the counter value `cnt + 1` and the stem the name was built from,
recorded for the bookkeeping proofs. -/
structure GenRecord where
  dest : String
  name : String
  prompt : String
  cat : String
  counter : Nat
  stemUsed : String
deriving DecidableEq

/-- The `for image in images` loop of lines 308-323: each iteration
re-binds `img_id` to `Path(img_id).stem`, builds the file name from it and
`cnt + 1`, saves the image, increments `cnt` and appends one manifest row.
Returns the records, the final `img_id` binding and the final `cnt`. -/
def saveImages (dest cat prompt caption : String) :
    List Unit → String → Nat → List GenRecord × String × Nat
  | [], curId, cnt => ([], curId, cnt)
  | _ :: rest, curId, cnt =>
    let s := stemOf curId
    let r : GenRecord :=
      { dest := dest, name := mkOutName s (cnt + 1) caption,
        prompt := prompt, cat := cat, counter := cnt + 1, stemUsed := s }
    let res := saveImages dest cat prompt caption rest s (cnt + 1)
    (r :: res.1, res.2.1, res.2.2)

/-- The `for bkg_file in bkg_files` loop (lines 208-323) for one category:
each file looks the category up in `bkg_to_prompt` (line 256) — a missing
key raises `KeyError` there, modelled as the error component — then runs
the pipeline (and the refiner when configured) and saves every returned
image. -/
def runFiles (dest cat : String) (table : List (String × String))
    (withRef : Bool) (bs : Nat) :
    List String → String → Nat → List GenRecord × String × Nat × Option String
  | [], curId, cnt => ([], curId, cnt, none)
  | _ :: rest, curId, cnt =>
    match dictLookup table cat with
    | none => ([], curId, cnt, some ("KeyError: " ++ cat))
    | some prompt =>
      let imgs := if withRef then refinerImages (pipeImages bs) else pipeImages bs
      let res := saveImages dest cat prompt (mkCaption prompt) imgs curId cnt
      let res' := runFiles dest cat table withRef bs rest res.2.1 res.2.2
      (res.1 ++ res'.1, res'.2.1, res'.2.2.1, res'.2.2.2)

/-- The `for bkg_dir, bkg_files in bkg_dict.items()` loop (line 207): the
categories of the catalog in order, stopping at the first error and keeping
what was already written. -/
def runCats (dest : String) (table : List (String × String))
    (withRef : Bool) (bs : Nat) :
    List (String × List String) → String → Nat →
    List GenRecord × String × Nat × Option String
  | [], curId, cnt => ([], curId, cnt, none)
  | (cat, files) :: rest, curId, cnt =>
    let res := runFiles dest cat table withRef bs files curId cnt
    match res.2.2.2 with
    | some err => (res.1, res.2.1, res.2.2.1, some err)
    | none =>
      let res' := runCats dest table withRef bs rest res.2.1 res.2.2.1
      (res.1 ++ res'.1, res'.2.1, res'.2.2.1, res'.2.2.2)

/-- One iteration of the outer foreground loop (lines 201-323): `cnt` is
reset to 0 and the saved-image records of all the sample's
(category, file, batch element) combinations are produced. -/
def runForeground (dest : String) (table : List (String × String))
    (withRef : Bool) (bs : Nat) (catalog : List (String × List String))
    (imgId : String) : List GenRecord × Option String :=
  let res := runCats dest table withRef bs catalog imgId 0
  (res.1, res.2.2.2)

/-- The whole generation loop over `image_ids`, stopping at the first
error.  The manifest data rows after a complete run are exactly the
records' `(dest, name, prompt)` triples, one per saved image. -/
def runAll (dest : String) (table : List (String × String)) (withRef : Bool)
    (bs : Nat) (catalog : List (String × List String)) :
    List String → List GenRecord × Option String
  | [] => ([], none)
  | imgId :: rest =>
    let res := runForeground dest table withRef bs catalog imgId
    match res.2 with
    | some err => (res.1, some err)
    | none =>
      let res' := runAll dest table withRef bs catalog rest
      (res.1 ++ res'.1, res'.2)

/-! ## Theorems -/

theorem sampleNoReplace_length (n : Nat) : ∀ (s : Nat) (xs : List String),
    (sampleNoReplace s xs n).1.length = n := by
  induction n with
  | zero => intro s xs; rfl
  | succ n ih => intro s xs; simp [sampleNoReplace, ih]

theorem sampleNoReplace_mem (n : Nat) : ∀ (s : Nat) (xs : List String),
    n ≤ xs.length → ∀ x ∈ (sampleNoReplace s xs n).1, x ∈ xs := by
  induction n with
  | zero => intro s xs _ x hx; simp [sampleNoReplace] at hx
  | succ n ih =>
    intro s xs hn x hx
    have hpos : 0 < xs.length := lt_of_lt_of_le (Nat.succ_pos n) hn
    have hi : lcg s % xs.length < xs.length := Nat.mod_lt _ hpos
    simp only [sampleNoReplace, List.mem_cons] at hx
    rcases hx with h | h
    · subst h
      rw [List.getD_eq_getElem?_getD, List.getElem?_eq_getElem hi]
      exact List.getElem_mem hi
    · have hlen : n ≤ (xs.eraseIdx (lcg s % xs.length)).length := by
        rw [List.length_eraseIdx, if_pos hi]
        omega
      exact List.mem_of_mem_eraseIdx (ih _ _ hlen x h)

theorem npChoice_spec (s : Nat) (xs : List String) (n : Nat) (h : n ≤ xs.length) :
    npChoice s xs n = some (sampleNoReplace s xs n) ∧
    (sampleNoReplace s xs n).1.length = n ∧
    ∀ x ∈ (sampleNoReplace s xs n).1, x ∈ xs :=
  ⟨if_neg (not_lt.mpr h), sampleNoReplace_length n s xs, sampleNoReplace_mem n s xs h⟩

theorem setEntry_mem (acc : List (String × List String)) (k : String)
    (v : List String) (kv : String × List String) (h : kv ∈ setEntry acc k v) :
    kv = (k, v) ∨ kv ∈ acc := by
  induction acc with
  | nil => simpa [setEntry] using h
  | cons hd tl ih =>
    obtain ⟨k', v'⟩ := hd
    by_cases hk : k' = k
    · rw [setEntry, if_pos hk] at h
      rcases List.mem_cons.mp h with h | h
      · exact Or.inl h
      · exact Or.inr (List.mem_cons_of_mem _ h)
    · rw [setEntry, if_neg hk] at h
      rcases List.mem_cons.mp h with h | h
      · exact Or.inr (h ▸ List.mem_cons_self _ _)
      · rcases ih h with h' | h'
        · exact Or.inl h'
        · exact Or.inr (List.mem_cons_of_mem _ h')

/-- The shape of a recorded catalog entry: exactly `maxN` paths, each a
member of the sorted matching files of a walked directory carrying the
entry's key. -/
def entryOk (walk₀ : List DirEntry) (maxN : Nat) (kv : String × List String) : Prop :=
  kv.2.length = maxN ∧ ∀ p ∈ kv.2, ∃ d ∈ walk₀, d.stem = kv.1 ∧ p ∈ joinedMatched d

theorem buildCatalogAux_ok (maxN : Nat) (walk₀ : List DirEntry) :
    ∀ (walk : List DirEntry) (s : Nat) (acc : List (String × List String)),
    (∀ d ∈ walk, d ∈ walk₀) →
    (∀ d ∈ walk, joinedMatched d = [] ∨ maxN ≤ (joinedMatched d).length) →
    (∀ kv ∈ acc, entryOk walk₀ maxN kv) →
    ∃ cat, buildCatalogAux maxN s walk acc = .ok cat ∧
      ∀ kv ∈ cat, entryOk walk₀ maxN kv := by
  intro walk
  induction walk with
  | nil => intro s acc _ _ hacc; exact ⟨acc, rfl, hacc⟩
  | cons d rest ih =>
    intro s acc hsub hgood hacc
    cases hjm : (joinedMatched d).isEmpty with
    | true =>
      rw [buildCatalogAux, hjm, if_pos rfl]
      exact ih s acc (fun d' hd' => hsub d' (List.mem_cons_of_mem _ hd'))
        (fun d' hd' => hgood d' (List.mem_cons_of_mem _ hd')) hacc
    | false =>
      have hmatch : joinedMatched d ≠ [] := by
        intro hnil
        rw [hnil] at hjm
        simp at hjm
      have hlen : maxN ≤ (joinedMatched d).length := by
        rcases hgood d (List.mem_cons_self d rest) with h | h
        · exact absurd h hmatch
        · exact h
      obtain ⟨heq, hlen', hmem⟩ := npChoice_spec s (joinedMatched d) maxN hlen
      rw [buildCatalogAux, hjm]
      simp only [Bool.false_eq_true, if_false]
      rw [heq]
      apply ih _ _ (fun d' hd' => hsub d' (List.mem_cons_of_mem _ hd'))
        (fun d' hd' => hgood d' (List.mem_cons_of_mem _ hd'))
      intro kv hkv
      rcases setEntry_mem _ _ _ _ hkv with h | h
      · subst h
        exact ⟨hlen', fun p hp =>
          ⟨d, hsub d (List.mem_cons_self d rest), rfl, hmem p hp⟩⟩
      · exact hacc kv h

theorem buildCatalogAux_err (maxN : Nat) :
    ∀ (walk : List DirEntry) (s : Nat) (acc : List (String × List String)),
    (∃ d ∈ walk, joinedMatched d ≠ [] ∧ (joinedMatched d).length < maxN) →
    (buildCatalogAux maxN s walk acc).isOk = false := by
  intro walk
  induction walk with
  | nil => intro s acc h; simp at h
  | cons d rest ih =>
    intro s acc h
    obtain ⟨d', hd', hne, hlt⟩ := h
    cases hjm : (joinedMatched d).isEmpty with
    | true =>
      have hrest : d' ∈ rest := by
        rcases List.mem_cons.mp hd' with h | h
        · exact absurd (h ▸ List.isEmpty_iff.mp hjm) (h ▸ hne)
        · exact h
      rw [buildCatalogAux, hjm, if_pos rfl]
      exact ih s acc ⟨d', hrest, hne, hlt⟩
    | false =>
      rw [buildCatalogAux, hjm]
      simp only [Bool.false_eq_true, if_false]
      by_cases hlen : (joinedMatched d).length < maxN
      · rw [show npChoice s (joinedMatched d) maxN = none from if_pos hlen]
        rfl
      · push_neg at hlen
        obtain ⟨heq, -, -⟩ := npChoice_spec s (joinedMatched d) maxN hlen
        rw [heq]
        have hrest : d' ∈ rest := by
          rcases List.mem_cons.mp hd' with h | h
          · exact absurd (h ▸ hlt) (not_lt.mpr (h ▸ hlen))
          · exact h
        exact ih _ _ ⟨d', hrest, hne, hlt⟩

/-- C1 counterexample: a directory with exactly one accepted image file and
a configured maximum of 2 makes `np.random.choice(..., replace=False)`
raise, so the build fails instead of recording the single file. -/
theorem buildCatalog_small_dir_fails :
    isValidImage "a.png" = true ∧
    (buildCatalog 0 2 [⟨"bg", "garden", ["a.png"]⟩]).isOk = false := by
  decide

/-- C1 (amended): a directory whose accepted-image files number at least
the configured maximum contributes an entry of exactly that many paths
drawn without replacement from its lexicographically sorted matching
files; but a directory with fewer (yet at least one) matching files makes
the build fail with the `np.random.choice` error rather than record them
all. -/
theorem buildCatalog_sampling (seed maxN : Nat) (walk : List DirEntry) :
    ((∀ d ∈ walk, joinedMatched d = [] ∨ maxN ≤ (joinedMatched d).length) →
      ∃ cat, buildCatalog seed maxN walk = .ok cat ∧
        ∀ kv ∈ cat, kv.2.length = maxN ∧
          ∀ p ∈ kv.2, ∃ d ∈ walk, d.stem = kv.1 ∧ p ∈ joinedMatched d) ∧
    ((∃ d ∈ walk, joinedMatched d ≠ [] ∧ (joinedMatched d).length < maxN) →
      (buildCatalog seed maxN walk).isOk = false) := by
  constructor
  · intro hgood
    exact buildCatalogAux_ok maxN walk walk seed [] (fun d hd => hd) hgood
      (fun kv hkv => absurd hkv (List.not_mem_nil kv))
  · intro hbad
    exact buildCatalogAux_err maxN walk seed [] hbad

/-- Witness for C1 (amended): a directory of three accepted files sampled
with maximum 2 yields an entry of exactly 2 of its sorted files. -/
theorem buildCatalog_sampling_witness :
    ∃ cat, buildCatalog 0 2 [⟨"bg", "garden", ["b.png", "a.png", "c.png"]⟩]
        = .ok cat ∧
      ∀ kv ∈ cat, kv.2.length = 2 ∧
        ∀ p ∈ kv.2,
          ∃ d ∈ [(⟨"bg", "garden", ["b.png", "a.png", "c.png"]⟩ : DirEntry)],
            d.stem = kv.1 ∧ p ∈ joinedMatched d :=
  (buildCatalog_sampling 0 2 [⟨"bg", "garden", ["b.png", "a.png", "c.png"]⟩]).1
    (by decide)

theorem batchImages_length (withRef : Bool) (bs : Nat) :
    (if withRef then refinerImages (pipeImages bs) else pipeImages bs).length = bs := by
  cases withRef <;> simp [refinerImages, pipeImages]

theorem saveImages_length (dest cat prompt caption : String) :
    ∀ (imgs : List Unit) (curId : String) (cnt : Nat),
      (saveImages dest cat prompt caption imgs curId cnt).1.length = imgs.length ∧
      (saveImages dest cat prompt caption imgs curId cnt).2.2 = cnt + imgs.length := by
  intro imgs
  induction imgs with
  | nil => intro curId cnt; exact ⟨rfl, rfl⟩
  | cons u rest ih =>
    intro curId cnt
    obtain ⟨h1, h2⟩ := ih (stemOf curId) (cnt + 1)
    refine ⟨?_, ?_⟩
    · simp only [saveImages, List.length_cons, h1]
    · simp only [saveImages, List.length_cons]
      omega

theorem saveImages_counters (dest cat prompt caption : String) :
    ∀ (imgs : List Unit) (curId : String) (cnt : Nat),
      (saveImages dest cat prompt caption imgs curId cnt).1.map (fun r => r.counter)
        = List.range' (cnt + 1) imgs.length := by
  intro imgs
  induction imgs with
  | nil => intro curId cnt; rfl
  | cons u rest ih =>
    intro curId cnt
    simp only [saveImages, List.map_cons, List.length_cons, List.range'_succ]
    exact congrArg _ (ih (stemOf curId) (cnt + 1))

theorem saveImages_fields (dest cat prompt caption : String) :
    ∀ (imgs : List Unit) (curId : String) (cnt : Nat),
      ∀ r ∈ (saveImages dest cat prompt caption imgs curId cnt).1,
        r.cat = cat ∧ r.prompt = prompt ∧
        r.name = mkOutName r.stemUsed r.counter caption := by
  intro imgs
  induction imgs with
  | nil => intro curId cnt r hr; simp [saveImages] at hr
  | cons u rest ih =>
    intro curId cnt r hr
    simp only [saveImages, List.mem_cons] at hr
    rcases hr with h | h
    · subst h; exact ⟨rfl, rfl, rfl⟩
    · exact ih (stemOf curId) (cnt + 1) r h

theorem saveImages_stems (dest cat prompt caption : String) (t : String)
    (ht : stemOf t = t) :
    ∀ (imgs : List Unit) (curId : String) (cnt : Nat), stemOf curId = t →
      (∀ r ∈ (saveImages dest cat prompt caption imgs curId cnt).1, r.stemUsed = t) ∧
      stemOf ((saveImages dest cat prompt caption imgs curId cnt).2.1) = t := by
  intro imgs
  induction imgs with
  | nil =>
    intro curId cnt hcur
    exact ⟨fun r hr => absurd hr (by simp [saveImages]), hcur⟩
  | cons u rest ih =>
    intro curId cnt hcur
    have hnext : stemOf (stemOf curId) = t := by rw [hcur, ht]
    obtain ⟨hmem, hfin⟩ := ih (stemOf curId) (cnt + 1) hnext
    refine ⟨?_, ?_⟩
    · intro r hr
      simp only [saveImages, List.mem_cons] at hr
      rcases hr with h | h
      · subst h; exact hcur
      · exact hmem r h
    · simpa only [saveImages] using hfin

theorem runFiles_err (dest cat : String) (table : List (String × String))
    (wr : Bool) (bs : Nat) (files : List String) (curId : String) (cnt : Nat)
    (hnone : dictLookup table cat = none) (hne : files ≠ []) :
    (runFiles dest cat table wr bs files curId cnt).1 = [] ∧
    (runFiles dest cat table wr bs files curId cnt).2.2.2
      = some ("KeyError: " ++ cat) := by
  cases files with
  | nil => exact absurd rfl hne
  | cons f rest => rw [runFiles, hnone]; exact ⟨rfl, rfl⟩

theorem runFiles_none_len (dest cat : String) (table : List (String × String))
    (wr : Bool) (bs : Nat) :
    ∀ (files : List String) (curId : String) (cnt : Nat),
      (runFiles dest cat table wr bs files curId cnt).2.2.2 = none →
      (runFiles dest cat table wr bs files curId cnt).1.length
        = files.length * bs := by
  intro files
  induction files with
  | nil => intro curId cnt _; simp [runFiles]
  | cons f rest ih =>
    intro curId cnt he
    cases hl : dictLookup table cat with
    | none => rw [runFiles, hl] at he; exact absurd he (by simp)
    | some prompt =>
      rw [runFiles, hl] at he ⊢
      simp only [List.length_append, List.length_cons]
      have hs := saveImages_length dest cat prompt (mkCaption prompt)
        (if wr then refinerImages (pipeImages bs) else pipeImages bs) curId cnt
      have hr := ih _ _ he
      rw [hs.1, batchImages_length, hr]
      ring

theorem runFiles_counters (dest cat : String) (table : List (String × String))
    (wr : Bool) (bs : Nat) :
    ∀ (files : List String) (curId : String) (cnt : Nat),
      (runFiles dest cat table wr bs files curId cnt).1.map (fun r => r.counter)
        = List.range' (cnt + 1) (runFiles dest cat table wr bs files curId cnt).1.length ∧
      (runFiles dest cat table wr bs files curId cnt).2.2.1
        = cnt + (runFiles dest cat table wr bs files curId cnt).1.length := by
  intro files
  induction files with
  | nil => intro curId cnt; exact ⟨rfl, rfl⟩
  | cons f rest ih =>
    intro curId cnt
    cases hl : dictLookup table cat with
    | none => rw [runFiles, hl]; exact ⟨rfl, rfl⟩
    | some prompt =>
      rw [runFiles, hl]
      simp only [List.map_append, List.length_append]
      set imgs := if wr then refinerImages (pipeImages bs) else pipeImages bs with himgs
      have hs := saveImages_length dest cat prompt (mkCaption prompt) imgs curId cnt
      have hc := saveImages_counters dest cat prompt (mkCaption prompt) imgs curId cnt
      obtain ⟨ih1, ih2⟩ := ih
        ((saveImages dest cat prompt (mkCaption prompt) imgs curId cnt).2.1)
        ((saveImages dest cat prompt (mkCaption prompt) imgs curId cnt).2.2)
      refine ⟨?_, ?_⟩
      · rw [hc, ih1, hs.1, hs.2]
        have harg : cnt + imgs.length + 1 = (cnt + 1) + imgs.length := by omega
        rw [harg, List.range'_append_1]
        congr 1
        omega
      · rw [ih2, hs.2]
        omega

theorem runFiles_fields (dest cat : String) (table : List (String × String))
    (wr : Bool) (bs : Nat) :
    ∀ (files : List String) (curId : String) (cnt : Nat),
      ∀ r ∈ (runFiles dest cat table wr bs files curId cnt).1,
        r.cat = cat ∧ dictLookup table cat = some r.prompt ∧
        r.name = mkOutName r.stemUsed r.counter (mkCaption r.prompt) := by
  intro files
  induction files with
  | nil => intro curId cnt r hr; simp [runFiles] at hr
  | cons f rest ih =>
    intro curId cnt r hr
    cases hl : dictLookup table cat with
    | none => rw [runFiles, hl] at hr; simp at hr
    | some prompt =>
      rw [runFiles, hl] at hr
      rcases List.mem_append.mp hr with h | h
      · obtain ⟨h1, h2, h3⟩ := saveImages_fields dest cat prompt (mkCaption prompt)
          _ curId cnt r h
        exact ⟨h1, by rw [h2], by rw [h2]; exact h3⟩
      · have hrec := ih _ _ r h
        exact ⟨hrec.1, hl ▸ hrec.2.1, hrec.2.2⟩

theorem runFiles_stems (dest cat : String) (table : List (String × String))
    (wr : Bool) (bs : Nat) (t : String) (ht : stemOf t = t) :
    ∀ (files : List String) (curId : String) (cnt : Nat), stemOf curId = t →
      (∀ r ∈ (runFiles dest cat table wr bs files curId cnt).1, r.stemUsed = t) ∧
      stemOf ((runFiles dest cat table wr bs files curId cnt).2.1) = t := by
  intro files
  induction files with
  | nil =>
    intro curId cnt hcur
    exact ⟨fun r hr => absurd hr (by simp [runFiles]), hcur⟩
  | cons f rest ih =>
    intro curId cnt hcur
    cases hl : dictLookup table cat with
    | none =>
      rw [runFiles, hl]
      exact ⟨fun r hr => absurd hr (by simp), hcur⟩
    | some prompt =>
      rw [runFiles, hl]
      obtain ⟨hm1, hf1⟩ := saveImages_stems dest cat prompt (mkCaption prompt) t ht
        _ curId cnt hcur
      obtain ⟨hm2, hf2⟩ := ih _ _ hf1
      refine ⟨?_, hf2⟩
      intro r hr
      rcases List.mem_append.mp hr with h | h
      · exact hm1 r h
      · exact hm2 r h

theorem runCats_none_len (dest : String) (table : List (String × String))
    (wr : Bool) (bs : Nat) :
    ∀ (cats : List (String × List String)) (curId : String) (cnt : Nat),
      (runCats dest table wr bs cats curId cnt).2.2.2 = none →
      (runCats dest table wr bs cats curId cnt).1.length
        = (cats.map (fun kv => kv.2.length)).sum * bs := by
  intro cats
  induction cats with
  | nil => intro curId cnt _; simp [runCats]
  | cons hd rest ih =>
    obtain ⟨c, fs⟩ := hd
    intro curId cnt he
    cases hf : (runFiles dest c table wr bs fs curId cnt).2.2.2 with
    | some err => rw [runCats, hf] at he; exact absurd he (by simp)
    | none =>
      rw [runCats, hf] at he ⊢
      simp only [List.length_append, List.map_cons, List.sum_cons]
      rw [runFiles_none_len dest c table wr bs fs curId cnt hf, ih _ _ he]
      ring

theorem runCats_counters (dest : String) (table : List (String × String))
    (wr : Bool) (bs : Nat) :
    ∀ (cats : List (String × List String)) (curId : String) (cnt : Nat),
      (runCats dest table wr bs cats curId cnt).1.map (fun r => r.counter)
        = List.range' (cnt + 1) (runCats dest table wr bs cats curId cnt).1.length ∧
      (runCats dest table wr bs cats curId cnt).2.2.1
        = cnt + (runCats dest table wr bs cats curId cnt).1.length := by
  intro cats
  induction cats with
  | nil => intro curId cnt; exact ⟨rfl, rfl⟩
  | cons hd rest ih =>
    obtain ⟨c, fs⟩ := hd
    intro curId cnt
    obtain ⟨hc1, hc2⟩ := runFiles_counters dest c table wr bs fs curId cnt
    cases hf : (runFiles dest c table wr bs fs curId cnt).2.2.2 with
    | some err => rw [runCats, hf]; exact ⟨hc1, hc2⟩
    | none =>
      rw [runCats, hf]
      obtain ⟨ih1, ih2⟩ := ih ((runFiles dest c table wr bs fs curId cnt).2.1)
        ((runFiles dest c table wr bs fs curId cnt).2.2.1)
      simp only [List.map_append, List.length_append]
      refine ⟨?_, ?_⟩
      · rw [hc1, ih1, hc2]
        have harg : cnt + (runFiles dest c table wr bs fs curId cnt).1.length + 1
            = (cnt + 1) + (runFiles dest c table wr bs fs curId cnt).1.length := by
          omega
        rw [harg, List.range'_append_1]
        congr 1
        omega
      · rw [ih2, hc2]
        omega

theorem runCats_fields (dest : String) (table : List (String × String))
    (wr : Bool) (bs : Nat) :
    ∀ (cats : List (String × List String)) (curId : String) (cnt : Nat),
      ∀ r ∈ (runCats dest table wr bs cats curId cnt).1,
        dictLookup table r.cat = some r.prompt ∧
        r.name = mkOutName r.stemUsed r.counter (mkCaption r.prompt) := by
  intro cats
  induction cats with
  | nil => intro curId cnt r hr; simp [runCats] at hr
  | cons hd rest ih =>
    obtain ⟨c, fs⟩ := hd
    intro curId cnt r hr
    have hfile : ∀ r' ∈ (runFiles dest c table wr bs fs curId cnt).1,
        dictLookup table r'.cat = some r'.prompt ∧
        r'.name = mkOutName r'.stemUsed r'.counter (mkCaption r'.prompt) := by
      intro r' hr'
      obtain ⟨h1, h2, h3⟩ := runFiles_fields dest c table wr bs fs curId cnt r' hr'
      exact ⟨h1 ▸ h2, h3⟩
    cases hf : (runFiles dest c table wr bs fs curId cnt).2.2.2 with
    | some err =>
      rw [runCats, hf] at hr
      exact hfile r hr
    | none =>
      rw [runCats, hf] at hr
      rcases List.mem_append.mp hr with h | h
      · exact hfile r h
      · exact ih _ _ r h

theorem runCats_err (dest : String) (table : List (String × String))
    (wr : Bool) (bs : Nat) (c : String) (fs : List String)
    (hnone : dictLookup table c = none) (hfs : fs ≠ []) :
    ∀ (cats : List (String × List String)) (curId : String) (cnt : Nat),
      (c, fs) ∈ cats →
      ((runCats dest table wr bs cats curId cnt).2.2.2).isSome = true := by
  intro cats
  induction cats with
  | nil => intro curId cnt h; simp at h
  | cons hd rest ih =>
    obtain ⟨c', fs'⟩ := hd
    intro curId cnt hmem
    cases hf : (runFiles dest c' table wr bs fs' curId cnt).2.2.2 with
    | some err => rw [runCats, hf]; rfl
    | none =>
      rw [runCats, hf]
      rcases List.mem_cons.mp hmem with h | h
      · obtain ⟨hc, hfs'⟩ := Prod.mk.injEq .. ▸ h
        exfalso
        have := (runFiles_err dest c' table wr bs fs' curId cnt
          (hc ▸ hnone) (hfs' ▸ hfs)).2
        rw [hf] at this
        exact Option.noConfusion this
      · exact ih _ _ h

theorem runCats_stems (dest : String) (table : List (String × String))
    (wr : Bool) (bs : Nat) (t : String) (ht : stemOf t = t) :
    ∀ (cats : List (String × List String)) (curId : String) (cnt : Nat),
      stemOf curId = t →
      (∀ r ∈ (runCats dest table wr bs cats curId cnt).1, r.stemUsed = t) ∧
      stemOf ((runCats dest table wr bs cats curId cnt).2.1) = t := by
  intro cats
  induction cats with
  | nil =>
    intro curId cnt hcur
    exact ⟨fun r hr => absurd hr (by simp [runCats]), hcur⟩
  | cons hd rest ih =>
    obtain ⟨c, fs⟩ := hd
    intro curId cnt hcur
    obtain ⟨hm1, hf1⟩ := runFiles_stems dest c table wr bs t ht fs curId cnt hcur
    cases hf : (runFiles dest c table wr bs fs curId cnt).2.2.2 with
    | some err => rw [runCats, hf]; exact ⟨hm1, hf1⟩
    | none =>
      rw [runCats, hf]
      obtain ⟨hm2, hf2⟩ := ih _ _ hf1
      refine ⟨?_, hf2⟩
      intro r hr
      rcases List.mem_append.mp hr with h | h
      · exact hm1 r h
      · exact hm2 r h

theorem runAll_none_len (dest : String) (table : List (String × String))
    (wr : Bool) (bs : Nat) (catalog : List (String × List String)) :
    ∀ (ids : List String),
      (runAll dest table wr bs catalog ids).2 = none →
      (runAll dest table wr bs catalog ids).1.length
        = ids.length * ((catalog.map (fun kv => kv.2.length)).sum * bs) := by
  intro ids
  induction ids with
  | nil => intro _; simp [runAll]
  | cons imgId rest ih =>
    intro he
    cases hf : (runForeground dest table wr bs catalog imgId).2 with
    | some err => rw [runAll, hf] at he; exact absurd he (by simp)
    | none =>
      rw [runAll, hf] at he ⊢
      simp only [List.length_append, List.length_cons]
      have hcats : (runCats dest table wr bs catalog imgId 0).2.2.2 = none := hf
      have h1 : (runForeground dest table wr bs catalog imgId).1.length
          = (catalog.map (fun kv => kv.2.length)).sum * bs :=
        runCats_none_len dest table wr bs catalog imgId 0 hcats
      rw [h1, ih he]
      ring

theorem runAll_fields (dest : String) (table : List (String × String))
    (wr : Bool) (bs : Nat) (catalog : List (String × List String)) :
    ∀ (ids : List String), ∀ r ∈ (runAll dest table wr bs catalog ids).1,
      dictLookup table r.cat = some r.prompt := by
  intro ids
  induction ids with
  | nil => intro r hr; simp [runAll] at hr
  | cons imgId rest ih =>
    intro r hr
    have hfg : ∀ r' ∈ (runForeground dest table wr bs catalog imgId).1,
        dictLookup table r'.cat = some r'.prompt := fun r' hr' =>
      (runCats_fields dest table wr bs catalog imgId 0 r' hr').1
    cases hf : (runForeground dest table wr bs catalog imgId).2 with
    | some err =>
      rw [runAll, hf] at hr
      exact hfg r hr
    | none =>
      rw [runAll, hf] at hr
      rcases List.mem_append.mp hr with h | h
      · exact hfg r h
      · exact ih r h

theorem runAll_err (dest : String) (table : List (String × String))
    (wr : Bool) (bs : Nat) (catalog : List (String × List String))
    (c : String) (fs : List String) (hmem : (c, fs) ∈ catalog) (hfs : fs ≠ [])
    (hnone : dictLookup table c = none) :
    ∀ (ids : List String), ids ≠ [] →
      ((runAll dest table wr bs catalog ids).2).isSome = true := by
  intro ids hids
  cases ids with
  | nil => exact absurd rfl hids
  | cons imgId rest =>
    cases hf : (runForeground dest table wr bs catalog imgId).2 with
    | some err => rw [runAll, hf]; rfl
    | none =>
      exfalso
      have := runCats_err dest table wr bs c fs hnone hfs catalog imgId 0 hmem
      have hf' : (runCats dest table wr bs catalog imgId 0).2.2.2 = none := hf
      rw [hf'] at this
      exact Bool.noConfusion this

/-- C2 counterexample: with the catalog holding `garden` (known) before
`volcano` (absent from the phrase table), the run does raise the lookup
error — but only after the `garden` pair has already been inpainted and
its output written, so the error is not raised before any inpainting
call. -/
theorem missing_category_not_failfast :
    (runAll "d" bkg_to_prompt false 1 [("garden", ["g1"]), ("volcano", ["v1"])]
        ["img_1.png"]).2 = some ("KeyError: volcano") ∧
    (runAll "d" bkg_to_prompt false 1 [("garden", ["g1"]), ("volcano", ["v1"])]
        ["img_1.png"]).1.length = 1 := by
  decide

/-- C2 (amended): a catalog category with at least one file but no
phrase-table entry makes any run with at least one foreground sample raise
the `KeyError` at that category's first use — no image is ever produced
for it and no caption is ever blank, every written record's prompt coming
from the table — but categories iterated earlier may already have been
inpainted and written by then. -/
theorem missing_category_raises (dest : String) (table : List (String × String))
    (wr : Bool) (bs : Nat) (catalog : List (String × List String))
    (ids : List String) (c : String) (fs : List String)
    (hmem : (c, fs) ∈ catalog) (hfs : fs ≠ [])
    (hnone : dictLookup table c = none) (hids : ids ≠ []) :
    ((runAll dest table wr bs catalog ids).2).isSome = true ∧
    ∀ r ∈ (runAll dest table wr bs catalog ids).1,
      r.cat ≠ c ∧ dictLookup table r.cat = some r.prompt := by
  refine ⟨runAll_err dest table wr bs catalog c fs hmem hfs hnone ids hids, ?_⟩
  intro r hr
  have hlook := runAll_fields dest table wr bs catalog ids r hr
  refine ⟨?_, hlook⟩
  intro hc
  rw [hc, hnone] at hlook
  exact Option.noConfusion hlook

/-- Witness for C2 (amended) at a concrete run whose only category is
unknown: the run errors and writes nothing. -/
theorem missing_category_raises_witness :
    ((runAll "d" bkg_to_prompt false 1 [("volcano", ["v1"])] ["img_1.png"]).2).isSome
        = true ∧
    ∀ r ∈ (runAll "d" bkg_to_prompt false 1 [("volcano", ["v1"])] ["img_1.png"]).1,
      r.cat ≠ "volcano" ∧ dictLookup bkg_to_prompt r.cat = some r.prompt :=
  missing_category_raises "d" bkg_to_prompt false 1 [("volcano", ["v1"])]
    ["img_1.png"] "volcano" ["v1"] (by decide) (by decide) (by decide) (by decide)

/-- C5: after a complete (error-free) run, the number of manifest data rows
— one written per saved image — equals the number of foreground samples
times the total number of sampled background files across all categories
times the batch size, with a configured refiner pass replacing the first
pass's outputs rather than adding rows. -/
theorem manifest_row_count (dest : String) (table : List (String × String))
    (wr : Bool) (bs : Nat) (catalog : List (String × List String))
    (ids : List String) (h : (runAll dest table wr bs catalog ids).2 = none) :
    (runAll dest table wr bs catalog ids).1.length
      = ids.length * ((catalog.map (fun kv => kv.2.length)).sum * bs) :=
  runAll_none_len dest table wr bs catalog ids h

/-- Witness for C5: two foregrounds, three background files in two
categories, batch 3, with the refiner configured: 2 × 3 × 3 = 18 rows. -/
theorem manifest_row_count_witness :
    (runAll "d" bkg_to_prompt true 3 [("garden", ["g1", "g2"]), ("beach", ["b1"])]
        ["img_1.png", "img_2.png"]).2 = none ∧
    (runAll "d" bkg_to_prompt true 3 [("garden", ["g1", "g2"]), ("beach", ["b1"])]
        ["img_1.png", "img_2.png"]).1.length = 18 :=
  ⟨by decide,
   manifest_row_count "d" bkg_to_prompt true 3
     [("garden", ["g1", "g2"]), ("beach", ["b1"])] ["img_1.png", "img_2.png"]
     (by decide)⟩

/-- C6 counterexample: for the foreground file `img.v2.png` (stem
`img.v2`), the second saved image's file name is built from the
re-stemmed `img`, not from the foreground id stem `img.v2`, because the
loop re-binds `img_id` to `Path(img_id).stem` at every saved image. -/
theorem output_name_restem :
    ((runForeground "d" bkg_to_prompt false 1 [("garden", ["f1", "f2"])]
        "img.v2.png").1.map (fun r => r.name))
      = ["img.v2_repaint-id_000001+a realistic photo of in a garden.png",
         "img_repaint-id_000002+a realistic photo of in a garden.png"] ∧
    "img_repaint-id_000002+a realistic photo of in a garden.png"
      ≠ mkOutName (stemOf "img.v2.png") 2 (mkCaption "in a garden") := by
  decide

/-- C6 (amended): for every foreground sample the counter restarts at 1 and
increments by exactly 1 per saved image across all its (category, file,
batch element) combinations, and every output file name is
`{stem}_repaint-id_{counter zero-padded to 6 digits}+{caption}.png` — where
`stem` is `Path(img_id).stem` of the *current* `img_id` binding, re-stemmed
at every saved image; whenever the foreground id's stem is a fixed point of
stemming (e.g. a single-extension name), this is the foreground id stem
throughout, as the claim states. -/
theorem output_counter_and_names (dest : String) (table : List (String × String))
    (wr : Bool) (bs : Nat) (catalog : List (String × List String))
    (imgId : String) :
    ((runForeground dest table wr bs catalog imgId).1.map (fun r => r.counter))
      = List.range' 1 (runForeground dest table wr bs catalog imgId).1.length ∧
    (∀ r ∈ (runForeground dest table wr bs catalog imgId).1,
      r.name = mkOutName r.stemUsed r.counter (mkCaption r.prompt)) ∧
    (stemOf (stemOf imgId) = stemOf imgId →
      ∀ r ∈ (runForeground dest table wr bs catalog imgId).1,
        r.stemUsed = stemOf imgId) := by
  refine ⟨(runCats_counters dest table wr bs catalog imgId 0).1, ?_, ?_⟩
  · intro r hr
    exact (runCats_fields dest table wr bs catalog imgId 0 r hr).2
  · intro hfix r hr
    exact (runCats_stems dest table wr bs (stemOf imgId) hfix catalog imgId 0
      rfl).1 r hr

/-- Witness for C6 (amended): concrete run over one category with two
files; counters are `[1, 2]` and both names use the stable stem
`img_7`. -/
theorem output_counter_and_names_witness :
    ((runForeground "d" bkg_to_prompt false 1 [("garden", ["f1", "f2"])]
        "img_7.png").1.map (fun r => r.counter)) = List.range' 1 2 ∧
    ∀ r ∈ (runForeground "d" bkg_to_prompt false 1 [("garden", ["f1", "f2"])]
        "img_7.png").1, r.stemUsed = stemOf "img_7.png" := by
  have h := output_counter_and_names "d" bkg_to_prompt false 1
    [("garden", ["f1", "f2"])] "img_7.png"
  exact ⟨h.1, h.2.2 (by decide)⟩

/-- C3: wherever the normalised mask (`mask / 255`) is 0, the element-wise
maximum of the masked background and the foreground equals the foreground
pixel exactly, for every pixel and channel of arrays of equal dimensions,
because the masked background is 0 there and pixel values are
non-negative. -/
theorem compositeImage_preserves_foreground (mask bkg fg : Nat → Nat → Nat → ℚ)
    (i j c : Nat) (hfg : 0 ≤ fg i j c) (hmask : normMask (mask i j c) = 0) :
    compositeImage mask bkg fg i j c = fg i j c := by
  unfold compositeImage
  rw [hmask, zero_mul, max_eq_right hfg]

/-- Witness for C3 at a concrete pixel: mask 0, background 200,
foreground 37. -/
theorem compositeImage_preserves_foreground_witness :
    (0 : ℚ) ≤ 37 ∧ normMask 0 = 0 ∧
    compositeImage (fun _ _ _ => 0) (fun _ _ _ => 200) (fun _ _ _ => 37) 0 0 0 = 37 :=
  ⟨by norm_num, by norm_num [normMask],
   compositeImage_preserves_foreground (fun _ _ _ => 0) (fun _ _ _ => 200)
     (fun _ _ _ => 37) 0 0 0 (by norm_num) (by norm_num [normMask])⟩

/-- C4: the per-channel mask inversion `255 - m` of the source is an
involution on 8-bit values: applying it twice gives the original back. -/
theorem invertMask_involutive (m : Nat) (hm : m ≤ 255) :
    invertMask (invertMask m) = m := by
  unfold invertMask
  omega

/-- Witness for C4 at the concrete 8-bit value 137. -/
theorem invertMask_involutive_witness :
    137 ≤ 255 ∧ invertMask (invertMask 137) = 137 :=
  ⟨by decide, invertMask_involutive 137 (by decide)⟩

/-- C7: the catalog build is deterministic — two runs over the same walk
(same file listing and traversal order) with the same seed and the same
per-category maximum produce identical category-to-file-list assignments. -/
theorem buildCatalog_deterministic (s₁ s₂ n₁ n₂ : Nat) (w₁ w₂ : List DirEntry)
    (hs : s₁ = s₂) (hn : n₁ = n₂) (hw : w₁ = w₂) :
    buildCatalog s₁ n₁ w₁ = buildCatalog s₂ n₂ w₂ := by
  rw [hs, hn, hw]

/-- Witness for C7: two identical concrete runs agree. -/
theorem buildCatalog_deterministic_witness :
    buildCatalog 0 2 [⟨"bg", "garden", ["b.png", "a.png", "c.png"]⟩]
      = buildCatalog 0 2 [⟨"bg", "garden", ["b.png", "a.png", "c.png"]⟩] :=
  buildCatalog_deterministic 0 0 2 2 _ _ rfl rfl rfl

/-- C8: with the noise toggle on, the background is `H × W × 3` with every
value in `[0, 255]`, no Gaussian pre-smoothing touches it (the result does
not depend on the Gaussian filter or on the loaded photo), and the mask
box-blur still applies to the mask exactly when the blur size is at least
1, independently of the toggle. -/
theorem noiseBackground_spec (seed H W : Nat) (g₁ g₂ : PixArray → PixArray)
    (fp₁ fp₂ : PixArray) (blurSize : Int) (bb rs : PixArray → PixArray)
    (m : PixArray) :
    (loadBackground true seed H W g₁ fp₁).height = H ∧
    (loadBackground true seed H W g₁ fp₁).width = W ∧
    (loadBackground true seed H W g₁ fp₁).channels = 3 ∧
    (∀ i j c, (loadBackground true seed H W g₁ fp₁).pix i j c ≤ 255) ∧
    (loadBackground true seed H W g₁ fp₁).gaussianSmoothed = false ∧
    loadBackground true seed H W g₁ fp₁ = loadBackground true seed H W g₂ fp₂ ∧
    (1 ≤ blurSize → processMask blurSize bb rs m = rs (bb m)) := by
  refine ⟨rfl, rfl, rfl, ?_, rfl, rfl, ?_⟩
  · intro i j c
    show randint255 seed i j c ≤ 255
    exact le_of_lt (lt_of_lt_of_le (Nat.mod_lt _ (by norm_num)) (by norm_num))
  · intro h
    simp [processMask, h]

/-- Witness for C8 at a concrete configuration (seed 0, 2×2, blur size 5). -/
theorem noiseBackground_spec_witness :
    (loadBackground true 0 2 2 id (fun _ _ _ => 9)).channels = 3 ∧
    (loadBackground true 0 2 2 id (fun _ _ _ => 9)).gaussianSmoothed = false ∧
    processMask 5 id id (fun _ _ _ => 7) = id (id (fun _ _ _ => 7)) := by
  have h := noiseBackground_spec 0 2 2 id id (fun _ _ _ => 9) (fun _ _ _ => 9)
    5 id id (fun _ _ _ => 7)
  exact ⟨h.2.2.1, h.2.2.2.2.1, h.2.2.2.2.2.2 (by norm_num)⟩

/-- C9: the phrase table behaves as a single mapping in which the duplicate
key `farm` resolves to the later literal `on the farm`, and every other
listed key maps to its single listed phrase. -/
theorem bkg_to_prompt_resolves (kv : String × String)
    (hkv : kv ∈ bkg_to_prompt_items) (hne : kv.1 ≠ "farm") :
    dictLookup bkg_to_prompt "farm" = some "on the farm" ∧
    dictLookup bkg_to_prompt kv.1 = some kv.2 := by
  constructor
  · decide
  · fin_cases hkv <;> first | rfl | (exact absurd rfl hne)

/-- Witness for C9 at the listed pair `garden ↦ in a garden`. -/
theorem bkg_to_prompt_resolves_witness :
    dictLookup bkg_to_prompt "farm" = some "on the farm" ∧
    dictLookup bkg_to_prompt "garden" = some "in a garden" :=
  bkg_to_prompt_resolves ("garden", "in a garden") (by decide) (by decide)

/-- C10: the mask path substitutes every occurrence of `img` in the full
joined path, so a source directory containing `img` has its directory
components rewritten too, not merely the file name. -/
theorem mask_path_rewrites_directory :
    mask_path "data/imgs" "img_0001.png" = "data/masks/mask_0001.png" ∧
    mask_path "data/imgs" "img_0001.png"
      ≠ joinPath "data/imgs" (pyReplace "img_0001.png" "img" "mask") := by
  decide

end Gen4Gen
